import Mathlib

/-!
Verification development for `file_ops.py`, a command-line bulk file-operation
utility.  The Python source is shallowly embedded: filenames are lists of
characters (`Str`), filesystem paths are lists of path components (`Path`),
and the stdlib primitives the script calls (`os.walk`, `os.listdir`,
`os.path.splitext`, `str.lower`, `shutil.*`) are modelled either by small
executable definitions that follow their documented behaviour on the inputs
the script feeds them, or — for the mutating `shutil`/`os` operations — by an
explicit state-passing interface (`FSOps`) whose operations may fail.
-/

namespace FileOps

/-- A Python string, embedded as its list of characters. -/
abbrev Str := List Char

/-- A filesystem path, embedded as its list of path components.
`os.path.join(root, name)` becomes `root ++ [name]`. -/
abbrev Path := List Str

/-- Convenience conversion from a Lean string literal to `Str`. -/
def st (s : String) : Str := s.toList

/-- Python `str.lower()` (adequate for the ASCII names the tool compares). -/
def lower (s : Str) : Str := s.map Char.toLower

/-- Python `str.strip()`: drop whitespace from both ends. -/
def strip (s : Str) : Str :=
  ((s.dropWhile Char.isWhitespace).reverse.dropWhile Char.isWhitespace).reverse

/-- Python substring test `needle in hay` (on already case-folded data the
script folds itself before calling it). -/
def isSubstringOf (needle : Str) : Str → Bool
  | [] => needle.isEmpty
  | c :: rest => needle.isPrefixOf (c :: rest) || isSubstringOf needle rest

/-- The extension component of `os.path.splitext(filename)` for a bare
filename (no directory separators): the suffix starting at the last dot,
except that a dot is not an extension separator when every character before
it is itself a dot (so `.bashrc` and `...` have no extension). -/
def splitextExt (s : Str) : Str :=
  let rev := s.reverse
  let extRev := rev.takeWhile (fun c => c ≠ '.')
  match rev.drop extRev.length with
  | [] => []
  | _ :: stemRev => if stemRev.any (fun c => c ≠ '.') then '.' :: extRev.reverse else []

/-! ## `parse_patterns_file` (source lines 27–84)

The file-existence and IO-failure paths return `None` in Python; the line
classification below is the pure core applied to the list of lines read. -/

/-- The four pattern categories built by `parse_patterns_file`. -/
structure Patterns where
  extensions : List Str
  directories : List Str
  exact : List Str
  contains : List Str
deriving DecidableEq, Repr

/-- `line.split('#', 1)[0].strip()`: drop the comment, trim whitespace. -/
def cleanLine (line : Str) : Str := strip (line.takeWhile (fun c => c ≠ '#'))

/-- The per-line classification of `parse_patterns_file`, applied to an
already cleaned line (priority: leading `.`, then trailing `/`, then leading
`*`, otherwise exact), returned as the singleton contribution to the four
categories.  The empty line contributes nothing. -/
def classifyLine (c : Str) : Patterns :=
  if c.isEmpty then ⟨[], [], [], []⟩
  else if c.head? = some '.' then ⟨[lower c], [], [], []⟩
  else if c.getLast? = some '/' then ⟨[], [c.dropLast], [], []⟩
  else if c.head? = some '*' then ⟨[], [], [], [c.drop 1]⟩
  else ⟨[], [], [c], []⟩

/-- One iteration of the line loop of `parse_patterns_file`. -/
def parseStep (ps : Patterns) (rawLine : Str) : Patterns :=
  let line := cleanLine rawLine
  if line.isEmpty then ps
  else if line.head? = some '.' then { ps with extensions := ps.extensions ++ [lower line] }
  else if line.getLast? = some '/' then { ps with directories := ps.directories ++ [line.dropLast] }
  else if line.head? = some '*' then { ps with contains := ps.contains ++ [line.drop 1] }
  else { ps with exact := ps.exact ++ [line] }

/-- `parse_patterns_file`, as a function of the list of lines of the file. -/
def parse_patterns_file (lines : List Str) : Patterns :=
  lines.foldl parseStep ⟨[], [], [], []⟩

/-- Pointwise concatenation of pattern sets. -/
def pappend (p q : Patterns) : Patterns :=
  ⟨p.extensions ++ q.extensions, p.directories ++ q.directories,
   p.exact ++ q.exact, p.contains ++ q.contains⟩

/-! ## `find_matching_items` (source lines 87–251)

Python's optional-list parameters default to `None`; every use in the source
is either a truthiness test (`if extensions:`) or a membership test, for which
`None` and `[]` behave identically, so optional lists are embedded as plain
(possibly empty) lists.  `os.walk` and `os.listdir` are external primitives:
the recursive branch consumes the triples `(root, dirs, files)` that `os.walk`
yields (the source never mutates a `dirs` list, so the walk is never pruned
and the triples do not depend on the matching configuration), and the
single-level branch consumes the `os.listdir` entries tagged by the
`os.path.isfile` / `os.path.isdir` dispatch the source performs. -/

/-- The keyword-argument bundle of `find_matching_items`. -/
structure Config where
  extensions : List Str
  include_dirs : Bool
  target_dirs : List Str
  contains_extension : Bool
  exact_match : List Str
  exclude_extensions : List Str
  exclude_exact : List Str
  exclude_contains : List Str
  exclude_dirs : List Str
  exclude_all_but : Bool
  include_all_files : Bool
  include_all_dirs : Bool
deriving Repr

/-- Extension normalization (source lines 136–141):
`ext.lower() if ext.startswith('.') else '.' + ext.lower()`. -/
def normalizeExt (e : Str) : Str :=
  if e.head? = some '.' then lower e else '.' :: lower e

/-- `file_matches_criteria` (source lines 143–164), with the captured
variables of the Python closure passed explicitly.  `extensions` is the
already normalized list the closure captures. -/
def file_matches_criteria (include_all_files : Bool) (exact_match : List Str)
    (extensions : List Str) (contains_extension : Bool) (filename : Str) : Bool :=
  if include_all_files then true
  else if !exact_match.isEmpty && exact_match.contains filename then true
  else if !extensions.isEmpty then
    let file_ext := lower (splitextExt filename)
    if extensions.contains file_ext then true
    else if contains_extension then
      let filename_lower := lower filename
      extensions.any (fun ext => isSubstringOf ext filename_lower)
    else false
  else false

/-- `file_matches_exclusion` (source lines 166–182), with the captured
variables passed explicitly; `exclude_extensions` is the normalized list. -/
def file_matches_exclusion (exclude_exact : List Str) (exclude_extensions : List Str)
    (exclude_contains : List Str) (filename : Str) : Bool :=
  if !exclude_exact.isEmpty && exclude_exact.contains filename then true
  else if !exclude_extensions.isEmpty &&
      exclude_extensions.contains (lower (splitextExt filename)) then true
  else if !exclude_contains.isEmpty then
    let filename_lower := lower filename
    exclude_contains.any (fun pattern => isSubstringOf (lower pattern) filename_lower)
  else false

/-- `has_inclusion_criteria` (source line 120). -/
def hasInclusionCriteria (cfg : Config) : Bool :=
  !cfg.extensions.isEmpty || !cfg.exact_match.isEmpty || cfg.include_all_files ||
    (cfg.include_dirs && !cfg.target_dirs.isEmpty)

/-- `has_exclusion_criteria` (source line 121). -/
def hasExclusionCriteria (cfg : Config) : Bool :=
  !cfg.exclude_extensions.isEmpty || !cfg.exclude_exact.isEmpty ||
    !cfg.exclude_contains.isEmpty || !cfg.exclude_dirs.isEmpty

/-- Both early-return validations of `find_matching_items` (source lines
124–133) pass. -/
def criteriaOk (cfg : Config) : Bool :=
  (hasInclusionCriteria cfg || hasExclusionCriteria cfg || cfg.exclude_all_but) &&
    (!cfg.exclude_all_but || hasInclusionCriteria cfg)

/-- The per-file inclusion decision, identical in the recursive and
single-level branches (source lines 189–202 and 223–236).  Normalization of
the extension lists happens once in `find_matching_items` before the loops;
it is replayed here so the decision is a function of the raw `Config`. -/
def fileDecision (cfg : Config) (file : Str) : Bool :=
  let extensions := cfg.extensions.map normalizeExt
  let exclude_extensions := cfg.exclude_extensions.map normalizeExt
  let matches_criteria := file_matches_criteria cfg.include_all_files cfg.exact_match
    extensions cfg.contains_extension file
  let matches_exclusion := file_matches_exclusion cfg.exclude_exact exclude_extensions
    cfg.exclude_contains file
  if cfg.exclude_all_but then !matches_criteria && !matches_exclusion
  else (matches_criteria || (extensions.isEmpty && cfg.exact_match.isEmpty) ||
    cfg.include_all_files) && !matches_exclusion

/-- The per-directory inclusion decision, identical in both branches
(source lines 205–213 and 240–248). -/
def dirDecision (cfg : Config) (dir_name : Str) : Bool :=
  if !cfg.exclude_dirs.isEmpty && cfg.exclude_dirs.contains dir_name then false
  else cfg.include_all_dirs ||
    (cfg.include_dirs && !cfg.target_dirs.isEmpty && cfg.target_dirs.contains dir_name)

/-- One triple `(root, dirs, files)` yielded by `os.walk`. -/
abbrev WalkTriple := Path × List Str × List Str

/-- One `os.listdir` entry, tagged by the `os.path.isfile`/`os.path.isdir`
dispatch of the single-level branch. -/
inductive Entry where
  | file (name : Str)
  | dir (name : Str)
deriving DecidableEq, Repr

/-- The body of the `for root, dirs, files in os.walk(...)` loop: files are
appended to the first accumulator, directories to the second. -/
def recStep (cfg : Config) (acc : List Path × List Path) (rdf : WalkTriple) :
    List Path × List Path :=
  let mf := rdf.2.2.foldl
    (fun mf file => if fileDecision cfg file then mf ++ [rdf.1 ++ [file]] else mf) acc.1
  let md := rdf.2.1.foldl
    (fun md d => if dirDecision cfg d then md ++ [rdf.1 ++ [d]] else md) acc.2
  (mf, md)

/-- The body of the `for item in os.listdir(source_dir)` loop. -/
def listStep (cfg : Config) (source_dir : Path) (acc : List Path × List Path)
    (e : Entry) : List Path × List Path :=
  match e with
  | .file name =>
    if fileDecision cfg name then (acc.1 ++ [source_dir ++ [name]], acc.2) else acc
  | .dir name =>
    if dirDecision cfg name then (acc.1, acc.2 ++ [source_dir ++ [name]]) else acc

/-- `find_matching_items`: validation, then either the recursive walk over
the `os.walk` triples `w` or the single-level pass over the `os.listdir`
entries `listing`. -/
def find_matching_items (cfg : Config) (w : List WalkTriple) (listing : List Entry)
    (source_dir : Path) (recursive : Bool) : List Path × List Path :=
  if !hasInclusionCriteria cfg && !hasExclusionCriteria cfg && !cfg.exclude_all_but then
    ([], [])
  else if cfg.exclude_all_but && !hasInclusionCriteria cfg then ([], [])
  else if recursive then w.foldl (recStep cfg) ([], [])
  else listing.foldl (listStep cfg source_dir) ([], [])

/-- All `(root, filename)` pairs the recursive walk classifies. -/
def walkFilePairs (w : List WalkTriple) : List (Path × Str) :=
  w.foldr (fun rdf acc => rdf.2.2.map (fun f => (rdf.1, f)) ++ acc) []

/-- All `(root, dirname)` pairs the recursive walk classifies. -/
def walkDirPairs (w : List WalkTriple) : List (Path × Str) :=
  w.foldr (fun rdf acc => rdf.2.1.map (fun d => (rdf.1, d)) ++ acc) []

/-- The file names among the `os.listdir` entries, in order. -/
def listingFiles (listing : List Entry) : List Str :=
  listing.filterMap (fun e => match e with | .file n => some n | .dir _ => none)

/-- The directory names among the `os.listdir` entries, in order. -/
def listingDirs (listing : List Entry) : List Str :=
  listing.filterMap (fun e => match e with | .dir n => some n | .file _ => none)

/-! ## `process_items` (source lines 254–323)

The three operations call `os`/`shutil` primitives that mutate the
filesystem and may raise.  They are embedded as a state-passing interface
`FSOps σ` over an abstract filesystem state `σ`: each primitive either
returns the new state or fails with the exception message.  A raising
primitive is atomic in this model (a failure leaves the state as it was),
matching the per-item `try`/`except` granularity the claims are about.
`os.path.relpath(item, source_dir)` is modelled for the only way the script
uses it — on items produced by the tree walk, which are `source_dir`-prefixed
component paths — as dropping that prefix. -/

/-- The `operation` argument: `'delete' | 'copy' | 'move'`. -/
inductive Op where
  | delete
  | copy
  | move
deriving DecidableEq, Repr

/-- The `os`/`shutil` primitives `process_items` invokes, over an abstract
filesystem state `σ`.  Each mutating primitive returns the new state or the
raised exception's message. -/
structure FSOps (σ : Type) where
  remove : σ → Path → Except String σ
  rmtree : σ → Path → Except String σ
  copy2 : σ → Path → Path → Except String σ
  copytree : σ → Path → Path → Except String σ
  move : σ → Path → Path → Except String σ
  makedirs : σ → Path → Except String σ
  path_exists : σ → Path → Bool

/-- The non-dry-run body of the item loop of `process_items` for one item:
the operation dispatch of source lines 287–315. -/
def processOne {σ : Type} (ops : FSOps σ) (operation : Op) (source_dir dest_dir : Path)
    (is_dirs : Bool) (s : σ) (item : Path) : Except String σ :=
  let rel_path := item.drop source_dir.length
  match operation with
  | .delete => if is_dirs then ops.rmtree s item else ops.remove s item
  | .copy =>
    let dest_item_path := dest_dir ++ rel_path
    let dest_parent_dir := dest_item_path.dropLast
    match (if ops.path_exists s dest_parent_dir then Except.ok s
           else ops.makedirs s dest_parent_dir) with
    | .error e => .error e
    | .ok s1 => if is_dirs then ops.copytree s1 item dest_item_path
                else ops.copy2 s1 item dest_item_path
  | .move =>
    let dest_item_path := dest_dir ++ rel_path
    let dest_parent_dir := dest_item_path.dropLast
    match (if ops.path_exists s dest_parent_dir then Except.ok s
           else ops.makedirs s dest_parent_dir) with
    | .error e => .error e
    | .ok s1 => ops.move s1 item dest_item_path

/-- One iteration of the item loop of `process_items` (source lines
274–321): the dry-run branch counts the item and performs no primitive call;
otherwise a successful operation bumps `processed_count` and a raised
exception appends `(item_path, message)` to `errors` and moves on. -/
def processStep {σ : Type} (ops : FSOps σ) (operation : Op) (source_dir dest_dir : Path)
    (is_dirs dry_run : Bool) (acc : σ × Nat × List (Path × String)) (item : Path) :
    σ × Nat × List (Path × String) :=
  if dry_run then (acc.1, acc.2.1 + 1, acc.2.2)
  else
    match processOne ops operation source_dir dest_dir is_dirs acc.1 item with
    | .ok s1 => (s1, acc.2.1 + 1, acc.2.2)
    | .error e => (acc.1, acc.2.1, acc.2.2 ++ [(item, e)])

/-- `process_items`: fold the item loop over the batch, returning the final
filesystem state together with `(processed_count, errors)`. -/
def process_items {σ : Type} (ops : FSOps σ) (operation : Op) (items : List Path)
    (source_dir dest_dir : Path) (is_dirs dry_run : Bool) (s : σ) :
    σ × Nat × List (Path × String) :=
  items.foldl (processStep ops operation source_dir dest_dir is_dirs dry_run) (s, 0, [])

/-! ## Pattern resolution in `main` (source lines 562–650)

The embedded part is the block that merges a parsed patterns file into the
CLI-supplied flag bag.  `args.X or []` patterns make `None` and `[]`
interchangeable, so optional list arguments are again plain lists. -/

/-- The CLI-supplied fields that the patterns-file block of `main` reads or
rewrites. -/
structure CliArgs where
  extensions : List Str
  exact_match : List Str
  include_dirs : Bool
  target_dirs : List Str
  exclude_extensions : List Str
  exclude_exact : List Str
  exclude_contains : List Str
  patterns_override : Bool
  exclude_all_but : Bool
  contains_extension : Bool
deriving Repr

/-- The variable state after the patterns-file block of `main`: the rewritten
`args` fields plus the locals `exclude_dirs`, `include_all_files`,
`include_all_dirs`, `has_inclusion_criteria`, `has_exclusion_criteria`. -/
structure Resolved where
  extensions : List Str
  exact_match : List Str
  include_dirs : Bool
  target_dirs : List Str
  exclude_extensions : List Str
  exclude_exact : List Str
  exclude_contains : List Str
  exclude_dirs : List Str
  include_all_files : Bool
  include_all_dirs : Bool
  has_inclusion_criteria : Bool
  has_exclusion_criteria : Bool
deriving Repr

/-- The normal (no patterns-exclude flag) branch of the patterns-file block
(source lines 632–650), applied to a parsed patterns file `p`. -/
def resolveNormalMode (a : CliArgs) (p : Patterns) : Resolved :=
  -- source lines 567–568
  let has_incl := !a.extensions.isEmpty || !a.exact_match.isEmpty ||
    (a.include_dirs && !a.target_dirs.isEmpty)
  let has_excl := !a.exclude_extensions.isEmpty || !a.exclude_exact.isEmpty ||
    !a.exclude_contains.isEmpty
  -- source lines 634–636
  let fire_ext := !p.extensions.isEmpty && (a.patterns_override || a.extensions.isEmpty)
  let extensions := if fire_ext then
    p.extensions ++ (if a.patterns_override then [] else a.extensions) else a.extensions
  let has_incl := has_incl || fire_ext
  -- source lines 638–640
  let fire_exact := !p.exact.isEmpty && (a.patterns_override || a.exact_match.isEmpty)
  let exact_match := if fire_exact then
    p.exact ++ (if a.patterns_override then [] else a.exact_match) else a.exact_match
  let has_incl := has_incl || fire_exact
  -- source lines 642–645: contains patterns are exclusions by default
  let exclude_contains := if !p.contains.isEmpty then p.contains ++ a.exclude_contains
    else a.exclude_contains
  let has_excl := has_excl || !p.contains.isEmpty
  -- source lines 647–650
  let include_dirs := if !p.directories.isEmpty then true else a.include_dirs
  let target_dirs := if !p.directories.isEmpty then
    p.directories ++ (if a.patterns_override then [] else a.target_dirs) else a.target_dirs
  let has_incl := has_incl || !p.directories.isEmpty
  { extensions, exact_match, include_dirs, target_dirs,
    exclude_extensions := a.exclude_extensions, exclude_exact := a.exclude_exact,
    exclude_contains, exclude_dirs := [],
    include_all_files := false, include_all_dirs := false,
    has_inclusion_criteria := has_incl, has_exclusion_criteria := has_excl }

/-- The `--patterns-exclude` branch of the patterns-file block (source lines
578–595): every pattern category becomes an exclusion and both include-all
flags are forced on. -/
def resolveExcludeAll (a : CliArgs) (p : Patterns) : Resolved :=
  let has_excl := !a.exclude_extensions.isEmpty || !a.exclude_exact.isEmpty ||
    !a.exclude_contains.isEmpty
  let exclude_extensions := if !p.extensions.isEmpty then
    p.extensions ++ a.exclude_extensions else a.exclude_extensions
  let exclude_exact := if !p.exact.isEmpty then p.exact ++ a.exclude_exact
    else a.exclude_exact
  let exclude_contains := if !p.contains.isEmpty then p.contains ++ a.exclude_contains
    else a.exclude_contains
  let exclude_dirs := if !p.directories.isEmpty then p.directories else []
  { extensions := a.extensions, exact_match := a.exact_match,
    include_dirs := a.include_dirs, target_dirs := a.target_dirs,
    exclude_extensions, exclude_exact, exclude_contains, exclude_dirs,
    include_all_files := true, include_all_dirs := true,
    has_inclusion_criteria := true, has_exclusion_criteria := has_excl }

/-- The `find_matching_items` call of `main` (source lines 699–715): how a
resolved flag bag is passed on, with `exclude_all_but` and
`contains_extension` forwarded from the untouched CLI flags. -/
def toConfig (r : Resolved) (exclude_all_but contains_extension : Bool) : Config :=
  { extensions := r.extensions, include_dirs := r.include_dirs,
    target_dirs := r.target_dirs, contains_extension,
    exact_match := r.exact_match, exclude_extensions := r.exclude_extensions,
    exclude_exact := r.exclude_exact, exclude_contains := r.exclude_contains,
    exclude_dirs := r.exclude_dirs, exclude_all_but,
    include_all_files := r.include_all_files, include_all_dirs := r.include_all_dirs }

/-! ## A concrete filesystem model used for witnesses

`ToyFS` instantiates the abstract state `σ` of `FSOps`: a list of existing
file paths plus a list of permission-locked paths on which mutation raises. -/

structure ToyFS where
  files : List Path
  locked : List Path
deriving DecidableEq, Repr

def toyOps : FSOps ToyFS where
  remove s p :=
    if s.locked.contains p then .error "Permission denied"
    else if s.files.contains p then .ok { s with files := s.files.erase p }
    else .error "No such file or directory"
  rmtree s p :=
    if s.locked.contains p then .error "Permission denied"
    else .ok { s with files := s.files.filter (fun q => !p.isPrefixOf q) }
  copy2 s src dst :=
    if s.files.contains src then .ok { s with files := s.files ++ [dst] }
    else .error "No such file or directory"
  copytree s src dst :=
    if s.files.contains src then .ok { s with files := s.files ++ [dst] }
    else .error "No such file or directory"
  move s src dst :=
    if s.files.contains src then .ok { s with files := s.files.erase src ++ [dst] }
    else .error "No such file or directory"
  makedirs s _ := .ok s
  path_exists _ _ := true

/-! ## Concrete configurations and walks used by the claim witnesses -/

/-- An exclude-all-but configuration keeping only `.txt` files. -/
def cfgKeepTxt : Config :=
  { extensions := [st "txt"], include_dirs := false, target_dirs := [],
    contains_extension := false, exact_match := [], exclude_extensions := [],
    exclude_exact := [], exclude_contains := [], exclude_dirs := [],
    exclude_all_but := true, include_all_files := false, include_all_dirs := false }

/-- A configuration matching `.tmp` files and all directories except `logs`. -/
def cfgExclLogs : Config :=
  { extensions := [st ".tmp"], include_dirs := false, target_dirs := [],
    contains_extension := false, exact_match := [], exclude_extensions := [],
    exclude_exact := [], exclude_contains := [], exclude_dirs := [st "logs"],
    exclude_all_but := false, include_all_files := false, include_all_dirs := true }

/-- The `os.walk` output of a tree `s/{logs/x.tmp}`: the excluded directory
`logs` is still descended into, because the source never prunes the walk. -/
def walkLogs : List WalkTriple :=
  [([st "s"], [st "logs"], []), ([st "s", st "logs"], [], [st "x.tmp"])]

/-- A directory-only inclusion configuration: target directory `thumbs`,
no file criteria, one contains-exclusion. -/
def cfgDirOnly : Config :=
  { extensions := [], include_dirs := true, target_dirs := [st "thumbs"],
    contains_extension := false, exact_match := [], exclude_extensions := [],
    exclude_exact := [], exclude_contains := [st "backup"], exclude_dirs := [],
    exclude_all_but := false, include_all_files := false, include_all_dirs := false }

/-- A configuration whose `exclude_contains` holds the empty string, as
produced by a pattern-file line `*`. -/
def cfgEmptyContains : Config :=
  { extensions := [st "txt"], include_dirs := false, target_dirs := [],
    contains_extension := false, exact_match := [], exclude_extensions := [],
    exclude_exact := [], exclude_contains := [[]], exclude_dirs := [],
    exclude_all_but := false, include_all_files := false, include_all_dirs := false }

/-- CLI arguments with extensions supplied and no override flag. -/
def argsTmpNoOverride : CliArgs :=
  { extensions := [st "tmp"], exact_match := [], include_dirs := false,
    target_dirs := [], exclude_extensions := [], exclude_exact := [],
    exclude_contains := [], patterns_override := false,
    exclude_all_but := false, contains_extension := false }

/-- CLI arguments with extensions supplied and the override flag set. -/
def argsTmpOverride : CliArgs :=
  { argsTmpNoOverride with patterns_override := true }

/-- A pattern set holding a single `.bak` extension pattern. -/
def patsBak : Patterns :=
  { extensions := [st ".bak"], directories := [], exact := [], contains := [] }

/-! ## General lemmas about the loops -/

theorem nonempty_and_contains {α : Type} [BEq α] (l : List α) (x : α) :
    (!l.isEmpty && l.contains x) = l.contains x := by
  cases l <;> simp

theorem foldl_append_filter {α β : Type} (p : α → Bool) (g : α → β) :
    ∀ (xs : List α) (acc : List β),
      xs.foldl (fun a x => if p x then a ++ [g x] else a) acc = acc ++ (xs.filter p).map g := by
  intro xs
  induction xs with
  | nil => intro acc; simp
  | cons x xs ih =>
    intro acc
    by_cases h : p x = true <;> simp [List.foldl_cons, List.filter_cons, h, ih]

theorem filter_of_map {α β : Type} (f : α → β) (p : β → Bool) :
    ∀ l : List α, (l.map f).filter p = (l.filter (fun x => p (f x))).map f := by
  intro l
  induction l with
  | nil => rfl
  | cons x xs ih =>
    by_cases h : p (f x) = true <;> simp [List.filter_cons, h, ih]

theorem recStep_eq (cfg : Config) (acc : List Path × List Path) (rdf : WalkTriple) :
    recStep cfg acc rdf =
      (acc.1 ++ (rdf.2.2.filter (fileDecision cfg)).map (fun f => rdf.1 ++ [f]),
       acc.2 ++ (rdf.2.1.filter (dirDecision cfg)).map (fun d => rdf.1 ++ [d])) := by
  unfold recStep
  rw [foldl_append_filter, foldl_append_filter]

theorem foldl_recStep (cfg : Config) :
    ∀ (w : List WalkTriple) (acc : List Path × List Path),
      w.foldl (recStep cfg) acc =
        (acc.1 ++ ((walkFilePairs w).filter (fun rn => fileDecision cfg rn.2)).map
          (fun rn => rn.1 ++ [rn.2]),
         acc.2 ++ ((walkDirPairs w).filter (fun rn => dirDecision cfg rn.2)).map
          (fun rn => rn.1 ++ [rn.2])) := by
  intro w
  induction w with
  | nil => intro acc; simp [walkFilePairs, walkDirPairs]
  | cons rdf w ih =>
    intro acc
    rw [List.foldl_cons, ih, recStep_eq]
    simp only [walkFilePairs, walkDirPairs, List.foldr_cons, List.filter_append,
      List.map_append, filter_of_map, List.map_map, List.append_assoc]
    rfl

theorem foldl_listStep (cfg : Config) (sd : Path) :
    ∀ (listing : List Entry) (acc : List Path × List Path),
      listing.foldl (listStep cfg sd) acc =
        (acc.1 ++ ((listingFiles listing).filter (fileDecision cfg)).map (fun n => sd ++ [n]),
         acc.2 ++ ((listingDirs listing).filter (dirDecision cfg)).map (fun n => sd ++ [n])) := by
  intro listing
  induction listing with
  | nil => intro acc; simp [listingFiles, listingDirs]
  | cons e l ih =>
    intro acc
    rw [List.foldl_cons, ih]
    cases e with
    | file n =>
      by_cases h : fileDecision cfg n = true <;>
        simp [listStep, listingFiles, listingDirs, List.filterMap_cons, List.filter_cons, h]
    | dir n =>
      by_cases h : dirDecision cfg n = true <;>
        simp [listStep, listingFiles, listingDirs, List.filterMap_cons, List.filter_cons, h]

theorem criteriaOk_guards {cfg : Config} (h : criteriaOk cfg = true) :
    (!hasInclusionCriteria cfg && !hasExclusionCriteria cfg && !cfg.exclude_all_but) = false ∧
      (cfg.exclude_all_but && !hasInclusionCriteria cfg) = false := by
  unfold criteriaOk at h
  cases hI : hasInclusionCriteria cfg <;> cases hE : hasExclusionCriteria cfg <;>
    cases hB : cfg.exclude_all_but <;> simp [hI, hE, hB] at h ⊢

/-- Characterization of the recursive branch of `find_matching_items` when
validation passes. -/
theorem find_rec_eq {cfg : Config} (w : List WalkTriple) (listing : List Entry)
    (sd : Path) (h : criteriaOk cfg = true) :
    find_matching_items cfg w listing sd true =
      (((walkFilePairs w).filter (fun rn => fileDecision cfg rn.2)).map
        (fun rn => rn.1 ++ [rn.2]),
       ((walkDirPairs w).filter (fun rn => dirDecision cfg rn.2)).map
        (fun rn => rn.1 ++ [rn.2])) := by
  obtain ⟨h1, h2⟩ := criteriaOk_guards h
  unfold find_matching_items
  rw [h1, h2]
  simp [foldl_recStep]

/-- Characterization of the single-level branch of `find_matching_items`
when validation passes. -/
theorem find_nonrec_eq {cfg : Config} (w : List WalkTriple) (listing : List Entry)
    (sd : Path) (h : criteriaOk cfg = true) :
    find_matching_items cfg w listing sd false =
      (((listingFiles listing).filter (fileDecision cfg)).map (fun n => sd ++ [n]),
       ((listingDirs listing).filter (dirDecision cfg)).map (fun n => sd ++ [n])) := by
  obtain ⟨h1, h2⟩ := criteriaOk_guards h
  unfold find_matching_items
  rw [h1, h2]
  simp [foldl_listStep]

theorem append_singleton_inj {α : Type} {a b : List α} {x y : α} :
    a ++ [x] = b ++ [y] ↔ a = b ∧ x = y := by
  rw [← List.concat_eq_append, ← List.concat_eq_append, List.concat_inj]

theorem mem_filtered_join (pred : Path × Str → Bool) {pairs : List (Path × Str)}
    {root : Path} {name : Str} (hmem : (root, name) ∈ pairs) :
    (root ++ [name]) ∈ (pairs.filter pred).map (fun rn => rn.1 ++ [rn.2]) ↔
      pred (root, name) = true := by
  constructor
  · intro h
    obtain ⟨rn, hrn, hjoin⟩ := List.mem_map.mp h
    obtain ⟨hmem2, hpred⟩ := List.mem_filter.mp hrn
    obtain ⟨h1, h2⟩ := append_singleton_inj.mp hjoin
    cases rn
    cases h1
    cases h2
    exact hpred
  · intro hp
    exact List.mem_map.mpr ⟨(root, name), List.mem_filter.mpr ⟨hmem, hp⟩, rfl⟩

theorem mem_filtered_join_names (p : Str → Bool) (sd : Path) {names : List Str}
    {name : Str} (hmem : name ∈ names) :
    (sd ++ [name]) ∈ (names.filter p).map (fun n => sd ++ [n]) ↔ p name = true := by
  constructor
  · intro h
    obtain ⟨n, hn, hjoin⟩ := List.mem_map.mp h
    obtain ⟨-, h2⟩ := append_singleton_inj.mp hjoin
    obtain ⟨hnm, hp⟩ := List.mem_filter.mp hn
    cases h2
    exact hp
  · intro hp
    exact List.mem_map.mpr ⟨name, List.mem_filter.mpr ⟨hmem, hp⟩, rfl⟩

theorem mem_listingFiles {listing : List Entry} {name : Str}
    (h : Entry.file name ∈ listing) : name ∈ listingFiles listing := by
  unfold listingFiles
  exact List.mem_filterMap.mpr ⟨Entry.file name, h, rfl⟩

theorem mem_listingDirs {listing : List Entry} {name : Str}
    (h : Entry.dir name ∈ listing) : name ∈ listingDirs listing := by
  unfold listingDirs
  exact List.mem_filterMap.mpr ⟨Entry.dir name, h, rfl⟩

theorem and_nonempty_contains {α : Type} [BEq α] (b : Bool) (l : List α) (x : α) :
    (b && !l.isEmpty && l.contains x) = (b && l.contains x) := by
  cases l <;> simp

theorem fileDecision_eab {cfg : Config} (hb : cfg.exclude_all_but = true) (f : Str) :
    fileDecision cfg f =
      (!file_matches_criteria cfg.include_all_files cfg.exact_match
          (cfg.extensions.map normalizeExt) cfg.contains_extension f &&
       !file_matches_exclusion cfg.exclude_exact (cfg.exclude_extensions.map normalizeExt)
          cfg.exclude_contains f) := by
  simp only [fileDecision, hb, if_true]

/-! ## Lemmas about the `process_items` loop -/

theorem process_shift {σ : Type} (ops : FSOps σ) (op : Op) (sd dd : Path) (isd : Bool) :
    ∀ (items : List Path) (s : σ) (c : Nat) (es : List (Path × String)),
      items.foldl (processStep ops op sd dd isd false) (s, c, es) =
        ((items.foldl (processStep ops op sd dd isd false) (s, 0, [])).1,
         c + (items.foldl (processStep ops op sd dd isd false) (s, 0, [])).2.1,
         es ++ (items.foldl (processStep ops op sd dd isd false) (s, 0, [])).2.2) := by
  intro items
  induction items with
  | nil => intro s c es; simp
  | cons i rest ih =>
    intro s c es
    rw [List.foldl_cons, List.foldl_cons]
    cases h : processOne ops op sd dd isd s i with
    | ok s1 =>
      have e1 : processStep ops op sd dd isd false (s, c, es) i = (s1, c + 1, es) := by
        simp [processStep, h]
      have e2 : processStep ops op sd dd isd false (s, 0, []) i = (s1, 1, []) := by
        simp [processStep, h]
      rw [e1, e2, ih s1 (c + 1) es, ih s1 1 []]
      simp [Nat.add_assoc]
    | error e =>
      have e1 : processStep ops op sd dd isd false (s, c, es) i = (s, c, es ++ [(i, e)]) := by
        simp [processStep, h]
      have e2 : processStep ops op sd dd isd false (s, 0, []) i = (s, 0, [(i, e)]) := by
        simp [processStep, h]
      rw [e1, e2, ih s c (es ++ [(i, e)]), ih s 0 [(i, e)]]
      simp

theorem process_count {σ : Type} (ops : FSOps σ) (op : Op) (sd dd : Path) (isd : Bool) :
    ∀ (items : List Path) (s : σ),
      (process_items ops op items sd dd isd false s).2.1 +
        (process_items ops op items sd dd isd false s).2.2.length = items.length := by
  intro items
  induction items with
  | nil => intro s; simp [process_items]
  | cons i rest ih =>
    intro s
    unfold process_items at ih ⊢
    rw [List.foldl_cons]
    cases h : processOne ops op sd dd isd s i with
    | ok s1 =>
      have e2 : processStep ops op sd dd isd false (s, 0, []) i = (s1, 1, []) := by
        simp [processStep, h]
      rw [e2, process_shift]
      have := ih s1
      simp at this ⊢
      omega
    | error e =>
      have e2 : processStep ops op sd dd isd false (s, 0, []) i = (s, 0, [(i, e)]) := by
        simp [processStep, h]
      rw [e2, process_shift]
      have := ih s
      simp at this ⊢
      omega

/-! ## Lemmas about the pattern-file parser -/

theorem pappend_empty_right (p : Patterns) : pappend p ⟨[], [], [], []⟩ = p := by
  cases p
  simp [pappend]

theorem pappend_empty_left (p : Patterns) : pappend ⟨[], [], [], []⟩ p = p := by
  cases p
  simp [pappend]

theorem pappend_assoc (p q r : Patterns) :
    pappend (pappend p q) r = pappend p (pappend q r) := by
  cases p; cases q; cases r
  simp [pappend]

theorem parseStep_eq (ps : Patterns) (l : Str) :
    parseStep ps l = pappend ps (classifyLine (cleanLine l)) := by
  cases ps
  by_cases h0 : (cleanLine l).isEmpty = true
  · simp [parseStep, classifyLine, pappend, h0]
  · by_cases h1 : (cleanLine l).head? = some '.'
    · simp [parseStep, classifyLine, pappend, h0, h1]
    · by_cases h2 : (cleanLine l).getLast? = some '/'
      · simp [parseStep, classifyLine, pappend, h0, h1, h2]
      · by_cases h3 : (cleanLine l).head? = some '*'
        · simp [parseStep, classifyLine, pappend, h0, h1, h2, h3]
        · simp [parseStep, classifyLine, pappend, h0, h1, h2, h3]

theorem parse_foldl_eq :
    ∀ (lines : List Str) (ps : Patterns),
      lines.foldl parseStep ps = pappend ps (parse_patterns_file lines) := by
  intro lines
  induction lines with
  | nil => intro ps; simp [parse_patterns_file, pappend_empty_right]
  | cons l ls ih =>
    intro ps
    rw [List.foldl_cons, ih]
    unfold parse_patterns_file
    rw [List.foldl_cons, ih (parseStep ⟨[], [], [], []⟩ l), parseStep_eq,
      parseStep_eq ⟨[], [], [], []⟩, pappend_empty_left, pappend_assoc]
    rfl

theorem parse_cons (l : Str) (rest : List Str) :
    parse_patterns_file (l :: rest) =
      pappend (classifyLine (cleanLine l)) (parse_patterns_file rest) := by
  unfold parse_patterns_file
  rw [List.foldl_cons, parse_foldl_eq, parseStep_eq, pappend_empty_left]
  rfl

theorem nil_isSubstringOf : ∀ h : Str, isSubstringOf [] h = true := by
  intro h
  induction h with
  | nil => rfl
  | cons c rest ih => simp [isSubstringOf, List.isPrefixOf, ih]

/-! ## Claims -/

/-- Claim C1: for every filename `f`, `file_matches_criteria f` is true iff
`include_all_files` is set, or `f` is in `exact_match`, or `f`'s actual
extension (the `os.path.splitext` suffix, case-folded) is in the normalized
`includeExtensions`, or `contains_extension` is set and some extension in
`includeExtensions` occurs as a substring of the case-folded `f`.  The
scenario conjuncts pin the case-insensitivity (`b.TMP` matches `.tmp`,
`c.txt` does not) and the suffixed-name behaviour (`report.msg.1` matches
`.msg` only when `contains_extension` is set). -/
theorem C1_file_matches_criteria_iff :
    (∀ (include_all_files : Bool) (exact_match extensions : List Str)
        (contains_extension : Bool) (f : Str),
      file_matches_criteria include_all_files exact_match extensions contains_extension f =
        (include_all_files || exact_match.contains f ||
          extensions.contains (lower (splitextExt f)) ||
          (contains_extension && extensions.any (fun ext => isSubstringOf ext (lower f))))) ∧
    file_matches_criteria false [] [st ".tmp"] false (st "a.tmp") = true ∧
    file_matches_criteria false [] [st ".tmp"] false (st "b.TMP") = true ∧
    file_matches_criteria false [] [st ".tmp"] false (st "c.txt") = false ∧
    file_matches_criteria false [] [st ".msg"] true (st "report.msg.1") = true ∧
    file_matches_criteria false [] [st ".msg"] false (st "report.msg.1") = false := by
  refine ⟨?_, by decide, by decide, by decide, by decide, by decide⟩
  intro iaf em exts ce f
  cases iaf
  · simp only [file_matches_criteria, nonempty_and_contains, Bool.false_or,
      Bool.false_eq_true, if_false]
    cases hem : em.contains f
    · simp only [Bool.false_eq_true, if_false, Bool.false_or]
      cases hexts : exts with
      | nil => simp
      | cons e es =>
        simp only [List.isEmpty_cons, Bool.not_false, if_true]
        cases hc : (e :: es).contains (lower (splitextExt f))
        · cases ce <;> simp [hc]
        · simp [hc]
    · simp
  · simp [file_matches_criteria]

/-- Claim C7: `parse_patterns_file` strips everything from the first `#`
onward, trims whitespace, skips lines that are then empty, and classifies
every remaining line into exactly one category by fixed priority (leading
`.` → extension stored lower-cased, trailing `/` → directory with the slash
stripped, leading `*` → contains with the asterisk stripped, otherwise exact
stored verbatim); the stated four-line file parses as claimed.  The second
conjunct factors the parse into one `classifyLine (cleanLine l)`
contribution per line; the remaining conjuncts show the cleaned-empty line
contributes nothing and that a cleaned non-empty line lands in exactly the
one category its first matching rule selects. -/
theorem C7_parse_patterns_file_classification :
    parse_patterns_file [st ".bak", st "logs/", st "*draft", st "notes.txt"] =
      { extensions := [st ".bak"], directories := [st "logs"],
        exact := [st "notes.txt"], contains := [st "draft"] } ∧
    parse_patterns_file [st "# header", st "   ", st " .BAK  # backups"] =
      { extensions := [st ".bak"], directories := [], exact := [], contains := [] } ∧
    (∀ (l : Str) (rest : List Str),
      parse_patterns_file (l :: rest) =
        pappend (classifyLine (cleanLine l)) (parse_patterns_file rest)) ∧
    classifyLine [] = ⟨[], [], [], []⟩ ∧
    (∀ c : Str,
      (c.head? = some '.' → classifyLine c = ⟨[lower c], [], [], []⟩) ∧
      (c.head? ≠ some '.' → c.getLast? = some '/' →
        classifyLine c = ⟨[], [c.dropLast], [], []⟩) ∧
      (c.head? = some '*' → c.getLast? ≠ some '/' →
        classifyLine c = ⟨[], [], [], [c.drop 1]⟩) ∧
      (c ≠ [] → c.head? ≠ some '.' → c.getLast? ≠ some '/' → c.head? ≠ some '*' →
        classifyLine c = ⟨[], [], [c], []⟩) ∧
      (c ≠ [] →
        (classifyLine c).extensions.length + (classifyLine c).directories.length +
          (classifyLine c).exact.length + (classifyLine c).contains.length = 1)) := by
  refine ⟨by decide, by decide, parse_cons, rfl, ?_⟩
  intro c
  have hne : c ≠ [] → c.isEmpty = false := by
    intro h
    cases c
    · exact absurd rfl h
    · rfl
  refine ⟨?_, ?_, ?_, ?_, ?_⟩
  · intro h1
    have h0 : c.isEmpty = false := by
      apply hne
      intro hc
      rw [hc] at h1
      exact Option.noConfusion h1
    simp [classifyLine, h0, h1]
  · intro h1 h2
    have h0 : c.isEmpty = false := by
      apply hne
      intro hc
      rw [hc] at h2
      exact Option.noConfusion h2
    simp [classifyLine, h0, h1, h2]
  · intro h1 h2
    have h0 : c.isEmpty = false := by
      apply hne
      intro hc
      rw [hc] at h1
      exact Option.noConfusion h1
    have h1' : c.head? ≠ some '.' := by
      rw [h1]
      decide
    simp [classifyLine, h0, h1, h1', h2]
  · intro h0 h1 h2 h3
    simp [classifyLine, hne h0, h1, h2, h3]
  · intro h0
    by_cases h1 : c.head? = some '.'
    · simp [classifyLine, hne h0, h1]
    · by_cases h2 : c.getLast? = some '/'
      · simp [classifyLine, hne h0, h1, h2]
      · by_cases h3 : c.head? = some '*'
        · simp [classifyLine, hne h0, h1, h2, h3]
        · simp [classifyLine, hne h0, h1, h2, h3]

/-- Claim C10: a pattern-file line consisting of only `*` parses to the
empty string in the contains category; an empty string anywhere in
`exclude_contains` makes `file_matches_exclusion` true for every filename
(the empty string is a substring of every name), so `find_matching_items`
matches no file at all in that case, in either mode and either walk. -/
theorem C10_star_line_excludes_everything :
    parse_patterns_file [st "*"] =
      { extensions := [], directories := [], exact := [], contains := [[]] } ∧
    (∀ (exclude_exact exclude_extensions exclude_contains : List Str) (f : Str),
      [] ∈ exclude_contains →
      file_matches_exclusion exclude_exact exclude_extensions exclude_contains f = true) ∧
    (∀ (cfg : Config) (w : List WalkTriple) (listing : List Entry) (sd : Path)
        (recursive : Bool),
      [] ∈ cfg.exclude_contains →
      (find_matching_items cfg w listing sd recursive).1 = []) := by
  have hexc : ∀ (ee ex ec : List Str) (f : Str), [] ∈ ec →
      file_matches_exclusion ee ex ec f = true := by
    intro ee ex ec f hm
    have hne : ec.isEmpty = false := by
      cases ec
      · exact absurd hm (List.not_mem_nil [])
      · rfl
    have hany : ec.any (fun pattern => isSubstringOf (lower pattern) (lower f)) = true := by
      refine List.any_eq_true.mpr ⟨[], hm, ?_⟩
      exact nil_isSubstringOf (lower f)
    unfold file_matches_exclusion
    by_cases hA : (!ee.isEmpty && ee.contains f) = true
    · rw [if_pos hA]
    · rw [if_neg hA]
      by_cases hB : (!ex.isEmpty && ex.contains (lower (splitextExt f))) = true
      · rw [if_pos hB]
      · have h3 : (!ec.isEmpty) = true := by rw [hne]; rfl
        rw [if_neg hB, if_pos h3]
        exact hany
  refine ⟨by decide, hexc, ?_⟩
  intro cfg w listing sd recursive hm
  have hdec : ∀ f : Str, fileDecision cfg f = false := by
    intro f
    have hme := hexc cfg.exclude_exact (cfg.exclude_extensions.map normalizeExt)
      cfg.exclude_contains f hm
    cases hb : cfg.exclude_all_but <;> simp [fileDecision, hb, hme]
  by_cases h1 : (!hasInclusionCriteria cfg && !hasExclusionCriteria cfg &&
      !cfg.exclude_all_but) = true
  · simp [find_matching_items, h1]
  · by_cases h2 : (cfg.exclude_all_but && !hasInclusionCriteria cfg) = true
    · simp [find_matching_items, h1, h2]
    · have hfilterw : (walkFilePairs w).filter (fun rn => fileDecision cfg rn.2) = [] := by
        apply List.filter_eq_nil_iff.mpr
        intro rn _
        simp [hdec rn.2]
      have hfilterl : (listingFiles listing).filter (fileDecision cfg) = [] := by
        apply List.filter_eq_nil_iff.mpr
        intro n _
        simp [hdec n]
      cases recursive
      · simp [find_matching_items, h1, h2, foldl_listStep, hfilterl]
      · simp [find_matching_items, h1, h2, foldl_recStep, hfilterw]

/-- Claim C2: when `exclude_all_but` is set and the inclusion-criteria
precondition holds, `find_matching_items` selects a file iff it matches
neither `file_matches_criteria` nor `file_matches_exclusion`; this holds in
both the recursive walk (first conjunct) and the single-level walk (second
conjunct). -/
theorem C2_exclude_all_but_inverts_selection {cfg : Config} (w : List WalkTriple)
    (listing : List Entry) (sd : Path)
    (hb : cfg.exclude_all_but = true) (hi : hasInclusionCriteria cfg = true) :
    (∀ (root : Path) (name : Str), (root, name) ∈ walkFilePairs w →
      ((root ++ [name]) ∈ (find_matching_items cfg w listing sd true).1 ↔
        (file_matches_criteria cfg.include_all_files cfg.exact_match
            (cfg.extensions.map normalizeExt) cfg.contains_extension name = false ∧
         file_matches_exclusion cfg.exclude_exact (cfg.exclude_extensions.map normalizeExt)
            cfg.exclude_contains name = false))) ∧
    (∀ name : Str, Entry.file name ∈ listing →
      ((sd ++ [name]) ∈ (find_matching_items cfg w listing sd false).1 ↔
        (file_matches_criteria cfg.include_all_files cfg.exact_match
            (cfg.extensions.map normalizeExt) cfg.contains_extension name = false ∧
         file_matches_exclusion cfg.exclude_exact (cfg.exclude_extensions.map normalizeExt)
            cfg.exclude_contains name = false))) := by
  have hok : criteriaOk cfg = true := by simp [criteriaOk, hb, hi]
  constructor
  · intro root name hmem
    rw [find_rec_eq w listing sd hok]
    have := mem_filtered_join (fun rn => fileDecision cfg rn.2) hmem
    simp only [] at this ⊢
    rw [this, fileDecision_eab hb]
    simp [Bool.and_eq_true]
  · intro name hmem
    rw [find_nonrec_eq w listing sd hok]
    have := mem_filtered_join_names (fileDecision cfg) sd (mem_listingFiles hmem)
    simp only [] at this ⊢
    rw [this, fileDecision_eab hb]
    simp [Bool.and_eq_true]

/-- Claim C6: in the recursive walk, a directory whose bare name is in
`exclude_dirs` is never added to `matched_dirs` (first conjunct, which holds
in particular when `include_all_dirs` is true), while a non-excluded
directory is added iff `include_all_dirs` is true or `include_dirs` is true
with its name in `target_dirs` (second conjunct).  Recursion beneath an
excluded directory is not pruned: the source never edits the `dirs` lists
`os.walk` yields, so the walk `w` covers the contents of excluded
directories, every walked file is classified by `fileDecision` no matter
what directories its root passes through (third conjunct), and the file
decision itself never reads `exclude_dirs` (fourth conjunct). -/
theorem C6_excluded_dirs_not_added_walk_not_pruned {cfg : Config}
    (w : List WalkTriple) (listing : List Entry) (sd : Path)
    (h : criteriaOk cfg = true) :
    (∀ (root : Path) (d : Str), (root, d) ∈ walkDirPairs w →
      cfg.exclude_dirs.contains d = true →
      (root ++ [d]) ∉ (find_matching_items cfg w listing sd true).2) ∧
    (∀ (root : Path) (d : Str), (root, d) ∈ walkDirPairs w →
      cfg.exclude_dirs.contains d = false →
      ((root ++ [d]) ∈ (find_matching_items cfg w listing sd true).2 ↔
        (cfg.include_all_dirs ||
          (cfg.include_dirs && cfg.target_dirs.contains d)) = true)) ∧
    ((find_matching_items cfg w listing sd true).1 =
      ((walkFilePairs w).filter (fun rn => fileDecision cfg rn.2)).map
        (fun rn => rn.1 ++ [rn.2])) ∧
    (∀ (ds : List Str) (f : Str),
      fileDecision { cfg with exclude_dirs := ds } f = fileDecision cfg f) := by
  refine ⟨?_, ?_, ?_, ?_⟩
  · intro root d hmem hc
    rw [find_rec_eq w listing sd h]
    have hiff := mem_filtered_join (fun rn => dirDecision cfg rn.2) hmem
    simp only [] at hiff ⊢
    have hdd : dirDecision cfg d = false := by
      unfold dirDecision
      rw [nonempty_and_contains, hc]
      rfl
    rw [hiff, hdd]
    simp
  · intro root d hmem hc
    rw [find_rec_eq w listing sd h]
    have hiff := mem_filtered_join (fun rn => dirDecision cfg rn.2) hmem
    simp only [] at hiff ⊢
    have hdd : dirDecision cfg d =
        (cfg.include_all_dirs || (cfg.include_dirs && cfg.target_dirs.contains d)) := by
      unfold dirDecision
      rw [nonempty_and_contains, hc, and_nonempty_contains]
      rfl
    rw [hiff, hdd]
  · rw [find_rec_eq w listing sd h]
  · intro ds f
    rfl

/-- Claim C9: in normal mode with directory-only inclusion criteria
(`exclude_all_but` and `include_all_files` unset, `extensions` and
`exact_match` empty, `include_dirs` set with a non-empty `target_dirs`),
`find_matching_items` passes its criteria validation and matches every file
that matches no exclusion criterion, in both walks: the file-side
no-inclusion-criteria test only looks at `extensions` and `exact_match`. -/
theorem C9_dir_only_criteria_matches_all_files {cfg : Config}
    (w : List WalkTriple) (listing : List Entry) (sd : Path)
    (hb : cfg.exclude_all_but = false) (_hf : cfg.include_all_files = false)
    (he : cfg.extensions = []) (hx : cfg.exact_match = [])
    (hd : cfg.include_dirs = true) (ht : cfg.target_dirs ≠ []) :
    ((find_matching_items cfg w listing sd true).1 =
      ((walkFilePairs w).filter (fun rn =>
        !file_matches_exclusion cfg.exclude_exact (cfg.exclude_extensions.map normalizeExt)
          cfg.exclude_contains rn.2)).map (fun rn => rn.1 ++ [rn.2])) ∧
    ((find_matching_items cfg w listing sd false).1 =
      ((listingFiles listing).filter (fun n =>
        !file_matches_exclusion cfg.exclude_exact (cfg.exclude_extensions.map normalizeExt)
          cfg.exclude_contains n)).map (fun n => sd ++ [n])) := by
  have htne : cfg.target_dirs.isEmpty = false := by
    cases hcase : cfg.target_dirs
    · exact absurd hcase ht
    · rfl
  have hok : criteriaOk cfg = true := by
    simp [criteriaOk, hasInclusionCriteria, hb, hd, htne]
  have hfd : fileDecision cfg = fun f =>
      !file_matches_exclusion cfg.exclude_exact (cfg.exclude_extensions.map normalizeExt)
        cfg.exclude_contains f := by
    funext f
    simp [fileDecision, hb, he, hx]
  constructor
  · rw [find_rec_eq w listing sd hok, hfd]
  · rw [find_nonrec_eq w listing sd hok, hfd]

/-- Claim C8: under the `--patterns-exclude` mode, every pattern-file
category becomes an exclusion (extensions, exact names, contains,
directories), `include_all_files` and `include_all_dirs` are forced true,
and the subsequent `find_matching_items` call (with the orthogonal
`--exclude-all-but` flag unset) selects exactly the files matching no file
exclusion criterion and the directories whose names are not excluded, in
both walks. -/
theorem C8_patterns_exclude_resolution (a : CliArgs) (p : Patterns)
    (w : List WalkTriple) (listing : List Entry) (sd : Path) :
    ((resolveExcludeAll a p).include_all_files = true) ∧
    ((resolveExcludeAll a p).include_all_dirs = true) ∧
    ((resolveExcludeAll a p).exclude_extensions = p.extensions ++ a.exclude_extensions) ∧
    ((resolveExcludeAll a p).exclude_exact = p.exact ++ a.exclude_exact) ∧
    ((resolveExcludeAll a p).exclude_contains = p.contains ++ a.exclude_contains) ∧
    ((resolveExcludeAll a p).exclude_dirs = p.directories) ∧
    (find_matching_items (toConfig (resolveExcludeAll a p) false a.contains_extension)
        w listing sd true =
      (((walkFilePairs w).filter (fun rn =>
          !file_matches_exclusion (resolveExcludeAll a p).exclude_exact
            ((resolveExcludeAll a p).exclude_extensions.map normalizeExt)
            (resolveExcludeAll a p).exclude_contains rn.2)).map (fun rn => rn.1 ++ [rn.2]),
       ((walkDirPairs w).filter (fun rn =>
          !(resolveExcludeAll a p).exclude_dirs.contains rn.2)).map
            (fun rn => rn.1 ++ [rn.2]))) ∧
    (find_matching_items (toConfig (resolveExcludeAll a p) false a.contains_extension)
        w listing sd false =
      (((listingFiles listing).filter (fun n =>
          !file_matches_exclusion (resolveExcludeAll a p).exclude_exact
            ((resolveExcludeAll a p).exclude_extensions.map normalizeExt)
            (resolveExcludeAll a p).exclude_contains n)).map (fun n => sd ++ [n]),
       ((listingDirs listing).filter (fun n =>
          !(resolveExcludeAll a p).exclude_dirs.contains n)).map (fun n => sd ++ [n]))) := by
  set r := resolveExcludeAll a p with hr
  set cfg := toConfig r false a.contains_extension with hcfg
  have hiaf : cfg.include_all_files = true := rfl
  have hok : criteriaOk cfg = true := by
    simp [criteriaOk, hasInclusionCriteria, hiaf]
  have hfd : fileDecision cfg = fun f =>
      !file_matches_exclusion r.exclude_exact (r.exclude_extensions.map normalizeExt)
        r.exclude_contains f := by
    funext f
    simp [fileDecision, hiaf]
    rfl
  have hdd : dirDecision cfg = fun d => !r.exclude_dirs.contains d := by
    funext d
    have hiad : cfg.include_all_dirs = true := rfl
    unfold dirDecision
    rw [nonempty_and_contains, hiad]
    have hed : cfg.exclude_dirs = r.exclude_dirs := rfl
    rw [hed]
    cases r.exclude_dirs.contains d <;> rfl
  refine ⟨rfl, rfl, ?_, ?_, ?_, ?_, ?_, ?_⟩
  · rw [hr]
    unfold resolveExcludeAll
    by_cases hp : p.extensions.isEmpty = true
    · rw [List.isEmpty_iff.mp hp]
      simp
    · simp [hp]
  · rw [hr]
    unfold resolveExcludeAll
    by_cases hp : p.exact.isEmpty = true
    · rw [List.isEmpty_iff.mp hp]
      simp
    · simp [hp]
  · rw [hr]
    unfold resolveExcludeAll
    by_cases hp : p.contains.isEmpty = true
    · rw [List.isEmpty_iff.mp hp]
      simp
    · simp [hp]
  · rw [hr]
    unfold resolveExcludeAll
    by_cases hp : p.directories.isEmpty = true
    · rw [List.isEmpty_iff.mp hp]
      simp
    · simp [hp]
  · rw [find_rec_eq w listing sd hok, hfd, hdd]
  · rw [find_nonrec_eq w listing sd hok, hfd, hdd]

/-- Claim C4: `process_items` never lets one item's failure abort the batch:
the processed count plus the number of recorded errors always equals the
batch size (first conjunct); a failing head item is recorded as its
`(path, message)` pair and processing continues with the remaining items
from the same state (second conjunct); and in the concrete three-item delete
batch whose middle item raises a permission error, the outcome is
`processed_count = 2` with one recorded error while the other two items are
removed (third conjunct). -/
theorem C4_partial_failure_semantics :
    (∀ (σ : Type) (ops : FSOps σ) (operation : Op) (items : List Path)
        (source_dir dest_dir : Path) (is_dirs : Bool) (s : σ),
      (process_items ops operation items source_dir dest_dir is_dirs false s).2.1 +
        (process_items ops operation items source_dir dest_dir is_dirs false s).2.2.length =
        items.length) ∧
    (∀ (σ : Type) (ops : FSOps σ) (operation : Op) (item : Path) (rest : List Path)
        (source_dir dest_dir : Path) (is_dirs : Bool) (s : σ) (e : String),
      processOne ops operation source_dir dest_dir is_dirs s item = .error e →
      process_items ops operation (item :: rest) source_dir dest_dir is_dirs false s =
        ((process_items ops operation rest source_dir dest_dir is_dirs false s).1,
         (process_items ops operation rest source_dir dest_dir is_dirs false s).2.1,
         (item, e) :: (process_items ops operation rest source_dir dest_dir is_dirs false s).2.2)) ∧
    (process_items toyOps .delete [[st "a.tmp"], [st "b.tmp"], [st "c.tmp"]] [] []
        false false
        { files := [[st "a.tmp"], [st "b.tmp"], [st "c.tmp"]], locked := [[st "b.tmp"]] } =
      ({ files := [[st "b.tmp"]], locked := [[st "b.tmp"]] }, 2,
        [([st "b.tmp"], "Permission denied")])) := by
  refine ⟨?_, ?_, by decide⟩
  · intro σ ops operation items source_dir dest_dir is_dirs s
    exact process_count ops operation source_dir dest_dir is_dirs items s
  · intro σ ops operation item rest source_dir dest_dir is_dirs s e herr
    unfold process_items
    rw [List.foldl_cons]
    have e2 : processStep ops operation source_dir dest_dir is_dirs false (s, 0, []) item =
        (s, 0, [(item, e)]) := by
      simp [processStep, herr]
    rw [e2, process_shift]
    simp

/-- Claim C5: with `dry_run` set, `process_items` performs no filesystem
mutation for any operation — the returned state is the input state, for any
filesystem model and any primitives — and every item counts as processed:
the result is `(s, items.length, [])`. -/
theorem C5_dry_run_is_pure (σ : Type) (ops : FSOps σ) (operation : Op)
    (items : List Path) (source_dir dest_dir : Path) (is_dirs : Bool) (s : σ) :
    process_items ops operation items source_dir dest_dir is_dirs true s =
      (s, items.length, []) := by
  unfold process_items
  have h : ∀ (its : List Path) (c : Nat) (es : List (Path × String)),
      its.foldl (processStep ops operation source_dir dest_dir is_dirs true) (s, c, es) =
        (s, c + its.length, es) := by
    intro its
    induction its with
    | nil => intro c es; simp
    | cons i rest ih =>
      intro c es
      rw [List.foldl_cons]
      have e1 : processStep ops operation source_dir dest_dir is_dirs true (s, c, es) i =
          (s, c + 1, es) := rfl
      rw [e1, ih]
      simp [Nat.add_assoc, Nat.add_comm 1 rest.length]
  simpa using h items 0 []

/-- Claim C3 counterexample: in normal mode without the override flag, a
pattern file's extension patterns are NOT added to CLI-supplied extensions:
with CLI `--extensions tmp` and a pattern file containing `.bak`, the
resolved extension list is exactly the CLI one and does not contain `.bak`,
contradicting the claim that pattern-file extensions are added to the
CLI-supplied extensions. -/
theorem C3_counterexample_extensions_dropped :
    ((resolveNormalMode argsTmpNoOverride patsBak).extensions = [st "tmp"]) ∧
    ¬ (st ".bak") ∈ (resolveNormalMode argsTmpNoOverride patsBak).extensions := by
  refine ⟨by decide, by decide⟩

/-- Claim C3, amended: in normal mode, pattern-file extension patterns and
exact-filename patterns are consulted only when the override flag is set or
the corresponding CLI list is empty — they replace the CLI list when
override is set, stand in for an empty CLI list otherwise, and are ignored
(not added) when the CLI list is non-empty without override.  Pattern-file
directory patterns are always added to the CLI target directories (or
replace them under override) and force `include_dirs` on, and contains
patterns are always folded into the exclude-contains list. -/
theorem C3_amended_normal_mode_resolution (a : CliArgs) (p : Patterns) :
    ((a.patterns_override = true → p.extensions ≠ [] →
        (resolveNormalMode a p).extensions = p.extensions) ∧
     (a.patterns_override = false → a.extensions = [] →
        (resolveNormalMode a p).extensions = p.extensions) ∧
     (a.patterns_override = false → a.extensions ≠ [] →
        (resolveNormalMode a p).extensions = a.extensions)) ∧
    ((a.patterns_override = true → p.exact ≠ [] →
        (resolveNormalMode a p).exact_match = p.exact) ∧
     (a.patterns_override = false → a.exact_match = [] →
        (resolveNormalMode a p).exact_match = p.exact) ∧
     (a.patterns_override = false → a.exact_match ≠ [] →
        (resolveNormalMode a p).exact_match = a.exact_match)) ∧
    ((resolveNormalMode a p).exclude_contains = p.contains ++ a.exclude_contains) ∧
    ((p.directories ≠ [] →
        (resolveNormalMode a p).include_dirs = true ∧
        (resolveNormalMode a p).target_dirs =
          p.directories ++ (if a.patterns_override then [] else a.target_dirs)) ∧
     (p.directories = [] →
        (resolveNormalMode a p).include_dirs = a.include_dirs ∧
        (resolveNormalMode a p).target_dirs = a.target_dirs)) := by
  have hne : ∀ l : List Str, l ≠ [] → l.isEmpty = false := by
    intro l hl
    cases l
    · exact absurd rfl hl
    · rfl
  refine ⟨⟨?_, ?_, ?_⟩, ⟨?_, ?_, ?_⟩, ?_, ?_, ?_⟩
  · intro hov hp
    simp [resolveNormalMode, hov, hne _ hp]
  · intro hov ha
    by_cases hp : p.extensions = []
    · simp [resolveNormalMode, hov, ha, hp]
    · simp [resolveNormalMode, hov, ha, hne _ hp]
  · intro hov ha
    simp [resolveNormalMode, hov, hne _ ha]
  · intro hov hp
    simp [resolveNormalMode, hov, hne _ hp]
  · intro hov ha
    by_cases hp : p.exact = []
    · simp [resolveNormalMode, hov, ha, hp]
    · simp [resolveNormalMode, hov, ha, hne _ hp]
  · intro hov ha
    simp [resolveNormalMode, hov, hne _ ha]
  · by_cases hp : p.contains = []
    · simp [resolveNormalMode, hp]
    · simp [resolveNormalMode, hne _ hp]
  · intro hp
    constructor
    · simp [resolveNormalMode, hne _ hp]
    · simp [resolveNormalMode, hne _ hp]
  · intro hp
    constructor
    · simp [resolveNormalMode, hp]
    · simp [resolveNormalMode, hp]

/-! ## Witnesses -/

/-- Witness for C2: a keep-`.txt` exclude-all-but run over a walk holding
`a.txt` and `b.tmp`, instantiated at `b.tmp`. -/
theorem C2_witness :
    cfgKeepTxt.exclude_all_but = true ∧ hasInclusionCriteria cfgKeepTxt = true ∧
    (([st "s"] ++ [st "b.tmp"]) ∈
        (find_matching_items cfgKeepTxt [([st "s"], [], [st "a.txt", st "b.tmp"])]
          [] [st "s"] true).1 ↔
      (file_matches_criteria cfgKeepTxt.include_all_files cfgKeepTxt.exact_match
          (cfgKeepTxt.extensions.map normalizeExt) cfgKeepTxt.contains_extension
          (st "b.tmp") = false ∧
       file_matches_exclusion cfgKeepTxt.exclude_exact
          (cfgKeepTxt.exclude_extensions.map normalizeExt) cfgKeepTxt.exclude_contains
          (st "b.tmp") = false)) :=
  ⟨rfl, rfl,
    (@C2_exclude_all_but_inverts_selection cfgKeepTxt
      [([st "s"], [], [st "a.txt", st "b.tmp"])]
      [] [st "s"] (by decide) (by decide)).1 [st "s"] (st "b.tmp") (by decide)⟩

/-- Witness for C3 (amended): with the override flag set, the pattern-file
extension list replaces the CLI-supplied one. -/
theorem C3_witness :
    argsTmpOverride.patterns_override = true ∧ patsBak.extensions ≠ [] ∧
    (resolveNormalMode argsTmpOverride patsBak).extensions = patsBak.extensions :=
  ⟨rfl, by decide,
    (C3_amended_normal_mode_resolution argsTmpOverride patsBak).1.1 rfl (by decide)⟩

/-- Witness for C4: a failing head item (locked `b.tmp`) is recorded and the
rest of the batch is processed from the same state. -/
theorem C4_witness :
    processOne toyOps .delete [] [] false
        { files := [[st "b.tmp"], [st "c.tmp"]], locked := [[st "b.tmp"]] }
        [st "b.tmp"] = .error "Permission denied" ∧
    process_items toyOps .delete [[st "b.tmp"], [st "c.tmp"]] [] [] false false
        { files := [[st "b.tmp"], [st "c.tmp"]], locked := [[st "b.tmp"]] } =
      ((process_items toyOps .delete [[st "c.tmp"]] [] [] false false
          { files := [[st "b.tmp"], [st "c.tmp"]], locked := [[st "b.tmp"]] }).1,
       (process_items toyOps .delete [[st "c.tmp"]] [] [] false false
          { files := [[st "b.tmp"], [st "c.tmp"]], locked := [[st "b.tmp"]] }).2.1,
       ([st "b.tmp"], "Permission denied") ::
         (process_items toyOps .delete [[st "c.tmp"]] [] [] false false
          { files := [[st "b.tmp"], [st "c.tmp"]], locked := [[st "b.tmp"]] }).2.2) :=
  ⟨rfl,
    C4_partial_failure_semantics.2.1 ToyFS toyOps .delete [st "b.tmp"] [[st "c.tmp"]]
      [] [] false { files := [[st "b.tmp"], [st "c.tmp"]], locked := [[st "b.tmp"]] }
      "Permission denied" rfl⟩

/-- Witness for C6: over the walk of `s/{logs/x.tmp}` with `logs` excluded
and `include_all_dirs` set, the excluded directory is not in the matched
directories, the matched files are exactly the classified walk files, and
the file under the excluded directory is matched. -/
theorem C6_witness :
    criteriaOk cfgExclLogs = true ∧
    ([st "s"] ++ [st "logs"]) ∉ (find_matching_items cfgExclLogs walkLogs [] [st "s"] true).2 ∧
    ((find_matching_items cfgExclLogs walkLogs [] [st "s"] true).1 =
      ((walkFilePairs walkLogs).filter (fun rn => fileDecision cfgExclLogs rn.2)).map
        (fun rn => rn.1 ++ [rn.2])) ∧
    ([st "s", st "logs"] ++ [st "x.tmp"]) ∈
      (find_matching_items cfgExclLogs walkLogs [] [st "s"] true).1 :=
  ⟨rfl,
    (@C6_excluded_dirs_not_added_walk_not_pruned cfgExclLogs walkLogs [] [st "s"]
      (by decide)).1 [st "s"] (st "logs") (by decide) (by decide),
    (@C6_excluded_dirs_not_added_walk_not_pruned cfgExclLogs walkLogs [] [st "s"]
      (by decide)).2.2.1,
    by decide⟩

/-- Witness for C7: the parse of a two-line file factors through the
per-line contribution, and each of the four scenario lines is classified
into its single category. -/
theorem C7_witness :
    (parse_patterns_file [st "*draft", st "x.txt"] =
      pappend (classifyLine (cleanLine (st "*draft"))) (parse_patterns_file [st "x.txt"])) ∧
    classifyLine (st ".bak") = ⟨[lower (st ".bak")], [], [], []⟩ ∧
    classifyLine (st "logs/") = ⟨[], [(st "logs/").dropLast], [], []⟩ ∧
    classifyLine (st "*draft") = ⟨[], [], [], [(st "*draft").drop 1]⟩ ∧
    classifyLine (st "notes.txt") = ⟨[], [], [st "notes.txt"], []⟩ :=
  ⟨C7_parse_patterns_file_classification.2.2.1 (st "*draft") [st "x.txt"],
    (C7_parse_patterns_file_classification.2.2.2.2 (st ".bak")).1 (by decide),
    (C7_parse_patterns_file_classification.2.2.2.2 (st "logs/")).2.1 (by decide) (by decide),
    (C7_parse_patterns_file_classification.2.2.2.2 (st "*draft")).2.2.1 (by decide) (by decide),
    (C7_parse_patterns_file_classification.2.2.2.2 (st "notes.txt")).2.2.2.1 (by decide)
      (by decide) (by decide) (by decide)⟩

/-- Witness for C9: with only the target directory `thumbs` as inclusion
criterion, the recursive matched files are exactly the non-excluded walk
files. -/
theorem C9_witness :
    cfgDirOnly.extensions = [] ∧ cfgDirOnly.exact_match = [] ∧
    cfgDirOnly.include_dirs = true ∧ cfgDirOnly.target_dirs ≠ [] ∧
    ((find_matching_items cfgDirOnly
        [([st "s"], [st "thumbs"], [st "a.pdf", st "b_backup.pdf"])] [] [st "s"] true).1 =
      ((walkFilePairs [([st "s"], [st "thumbs"], [st "a.pdf", st "b_backup.pdf"])]).filter
        (fun rn => !file_matches_exclusion cfgDirOnly.exclude_exact
          (cfgDirOnly.exclude_extensions.map normalizeExt) cfgDirOnly.exclude_contains
          rn.2)).map (fun rn => rn.1 ++ [rn.2])) :=
  ⟨rfl, rfl, rfl, by decide,
    (@C9_dir_only_criteria_matches_all_files cfgDirOnly
      [([st "s"], [st "thumbs"], [st "a.pdf", st "b_backup.pdf"])] [] [st "s"]
      (by decide) (by decide) (by decide) (by decide) (by decide) (by decide)).1⟩

/-- Witness for C10: the empty contains pattern excludes the concrete name
`a.txt`, and a configuration carrying it matches no file of a one-file
walk. -/
theorem C10_witness :
    ([] : Str) ∈ ([[]] : List Str) ∧
    file_matches_exclusion [] [] [[]] (st "a.txt") = true ∧
    ([] : Str) ∈ cfgEmptyContains.exclude_contains ∧
    (find_matching_items cfgEmptyContains [([st "s"], [], [st "a.txt"])] [] [st "s"] true).1 = [] :=
  ⟨by decide,
    C10_star_line_excludes_everything.2.1 [] [] [[]] (st "a.txt") (by decide),
    by decide,
    C10_star_line_excludes_everything.2.2 cfgEmptyContains [([st "s"], [], [st "a.txt"])]
      [] [st "s"] true (by decide)⟩

end FileOps
